import Mathlib

/-!
Verification of the fossil backup manager (src/fossil.py).

The program tracks files in an XML manifest (the active profile), takes
content-addressed tar snapshots of the tracked files, and restores them.
This file gives a shallow embedding of the manifest operations
(Database.add_file, Database.remove_file), the snapshot engine
(Database.take_snapshot) and the restorer (Database.restore_snapshot),
and proves or refutes the specified properties.

Modelling conventions, matching the Python source:
  - file contents are byte lists (List Nat);
  - the filesystem visible to the program is an association list from
    HOME-relative paths to contents; the script opens tracked files by
    their stored relative path (open(file.relpath)), so as in the source
    the working directory is taken to be HOME;
  - the MD5 digest (hashlib.md5, streamed in 128-byte chunks) is a pure
    function of the full byte content, so it is modelled as an arbitrary
    function parameter dg : Bytes -> String;
  - XML serialization is treated as the identity on the record list: a
    profile file holds exactly its list of file elements, in order;
  - directories written by the program (the buffer, the snapshot
    directory, the tar archive) are association lists keyed by entry
    name, with shutil.copy / tar overwrite-on-same-name semantics.
-/

set_option autoImplicit false

namespace Fossil

/-! ### Decimal strings

The XML index attribute is stored as the decimal string of the index
(Python f-string), and Database.remove_file compares that attribute
against str(index).  We therefore need that the decimal representation
Nat.repr is injective.  decDigits mirrors the fuelled core function
Nat.toDigitsCore at base 10.
-/

def decDigits (n : Nat) : List Char :=
  if h : n / 10 = 0 then [Nat.digitChar (n % 10)]
  else decDigits (n / 10) ++ [Nat.digitChar (n % 10)]
termination_by n
decreasing_by
  exact Nat.div_lt_self (Nat.pos_of_ne_zero (fun hn => h (by simp [hn]))) (by decide)

theorem decDigits_ne_nil (n : Nat) : decDigits n ≠ [] := by
  rw [decDigits]
  split <;> simp

theorem toDigitsCore_eq_decDigits :
    ∀ (fuel n : Nat) (ds : List Char), n < fuel →
      Nat.toDigitsCore 10 fuel n ds = decDigits n ++ ds := by
  intro fuel
  induction fuel with
  | zero => intro n ds h; exact absurd h (Nat.not_lt_zero n)
  | succ f ih =>
    intro n ds h
    by_cases h10 : n / 10 = 0
    · simp only [Nat.toDigitsCore, h10, if_true, reduceIte]
      rw [decDigits]
      simp [h10]
    · have hnpos : 0 < n := Nat.pos_of_ne_zero (fun hn => h10 (by simp [hn]))
      have hlt : n / 10 < f :=
        Nat.lt_of_lt_of_le (Nat.div_lt_self hnpos (by decide)) (Nat.le_of_lt_succ h)
      simp only [Nat.toDigitsCore, h10, reduceIte]
      rw [ih (n / 10) (Nat.digitChar (n % 10) :: ds) hlt]
      conv_rhs => rw [decDigits]
      simp [h10]

theorem toDigits_eq_decDigits (n : Nat) : Nat.toDigits 10 n = decDigits n := by
  rw [Nat.toDigits, toDigitsCore_eq_decDigits (n + 1) n [] (Nat.lt_succ_self n),
    List.append_nil]

theorem digitChar_inj_fin :
    ∀ a b : Fin 10, Nat.digitChar a.val = Nat.digitChar b.val → a = b := by decide

theorem digitChar_inj10 {a b : Nat} (ha : a < 10) (hb : b < 10)
    (h : Nat.digitChar a = Nat.digitChar b) : a = b := by
  have := digitChar_inj_fin ⟨a, ha⟩ ⟨b, hb⟩ h
  exact congrArg Fin.val this

theorem decDigits_inj : ∀ m n : Nat, decDigits m = decDigits n → m = n := by
  intro m
  induction m using Nat.strong_induction_on with
  | _ m ih =>
    intro n h
    conv at h => lhs; rw [decDigits]
    conv at h => rhs; rw [decDigits]
    by_cases hm : m / 10 = 0 <;> by_cases hn : n / 10 = 0
    · simp only [hm, hn, reduceDIte, List.cons.injEq, and_true] at h
      have := digitChar_inj10 (Nat.mod_lt m (by decide)) (Nat.mod_lt n (by decide)) h
      omega
    · exfalso
      simp only [hm, hn, reduceDIte] at h
      cases hd : decDigits (n / 10) with
      | nil => exact decDigits_ne_nil (n / 10) hd
      | cons c cs => rw [hd] at h; simp at h
    · exfalso
      simp only [hm, hn, reduceDIte] at h
      cases hd : decDigits (m / 10) with
      | nil => exact decDigits_ne_nil (m / 10) hd
      | cons c cs => rw [hd] at h; simp at h
    · simp only [hm, hn, reduceDIte] at h
      obtain ⟨h1, h2⟩ := List.append_inj' h rfl
      have hmpos : 0 < m := Nat.pos_of_ne_zero (fun h0 => hm (by simp [h0]))
      have hdiv := ih (m / 10) (Nat.div_lt_self hmpos (by decide)) (n / 10) h1
      simp only [List.cons.injEq, and_true] at h2
      have hmod := digitChar_inj10 (Nat.mod_lt m (by decide)) (Nat.mod_lt n (by decide)) h2
      omega

theorem natRepr_inj {m n : Nat} (h : Nat.repr m = Nat.repr n) : m = n := by
  have hd : Nat.toDigits 10 m = Nat.toDigits 10 n := by
    have := congrArg String.data h
    simpa [Nat.repr, List.asString] using this
  rw [toDigits_eq_decDigits, toDigits_eq_decDigits] at hd
  exact decDigits_inj m n hd

theorem natToString_inj {m n : Nat} (h : toString m = toString n) : m = n :=
  natRepr_inj h

/-! ### Data model

A File element of the XML database (class File in fossil.py): the index
attribute is stored as a decimal string (self.set with an f-string), the
name, relpath and sha256 subelements hold text.  The sha256 text is
None until a snapshot populates it, hence Option String.
-/

/-- Byte content of a file, as read in binary mode. -/
abbrev Bytes := List Nat

/-- A file element of the profile database (class File). -/
structure FileRec where
  index : String
  name : String
  relpath : String
  sha256 : Option String
deriving Repr, DecidableEq

/-- The filesystem the program reads tracked files from: HOME-relative
path to byte content.  The script runs with HOME as the working
directory, so open(file.relpath) reads the entry at that key. -/
abbrev FS := List (String × Bytes)

/-- Lookup of a path on the filesystem: some content when the path
exists, none when open would raise FileNotFoundError. -/
def fsLookup (fs : FS) (p : String) : Option Bytes :=
  match fs with
  | [] => none
  | (q, b) :: rest => if q == p then some b else fsLookup rest p

/-! ### ManifestStore operations (Database.add_file / Database.remove_file)

Both operations parse the active profile XML into its list of file
elements, transform the list and write it back; the embedding works
directly on the record list.  add_file receives here the already
resolved relative path (path.relpath(path.join(os.getcwd(), filepath),
HOME)) and the basename, since path resolution is pure string
bookkeeping; the existence test path.exists(filepath) is the fsLookup
test on that resolved path.
-/

/-- Database.add_file: no-op when the path does not exist on disk, no-op
when a record with the same relpath is present, otherwise append a new
record with index = current element count and empty digest. -/
def add_file (fs : FS) (db : List FileRec) (relpath name : String) : List FileRec :=
  if fsLookup fs relpath = none then db
  else if db.any (fun r => r.relpath == relpath) then db
  else db ++ [{ index := toString db.length, name := name,
                relpath := relpath, sha256 := none }]

/-- The renumbering loop of Database.remove_file: for i, elem in
enumerate(new_file_list): file.index = i.  Fields other than index are
copied unchanged (File.from_element). -/
def renumber (k : Nat) : List FileRec → List FileRec
  | [] => []
  | r :: rs => { r with index := toString k } :: renumber (k + 1) rs

/-- Database.remove_file: no-op on an empty store or an out-of-bounds
index; otherwise drop every element whose index attribute equals
str(index) and renumber the survivors 0.. in order. -/
def remove_file (db : List FileRec) (index : Int) : List FileRec :=
  if db.isEmpty then db
  else if index > (db.length : Int) - 1 ∨ index < 0 then db
  else renumber 0 (db.filter (fun r => ¬ (r.index == toString index)))

/-- One CLI mutation of the store.  An add carries the filesystem seen
at call time (the path existence test) together with the resolved
relative path and basename; a remove carries the integer index. -/
inductive Op where
  | add (fs : FS) (relpath name : String)
  | remove (index : Int)

def applyOp (db : List FileRec) : Op → List FileRec
  | .add fs relpath name => add_file fs db relpath name
  | .remove index => remove_file db index

def applyOps (ops : List Op) (db : List FileRec) : List FileRec :=
  ops.foldl applyOp db

/-- Index contiguity: the stored index attributes are the decimal
strings of 0..N-1, in stored order. -/
def Contiguous (db : List FileRec) : Prop :=
  db.map (fun r => r.index) = (List.range db.length).map toString

/-- The snapshot-relevant fields of a record, forgetting the index. -/
def fields (r : FileRec) : String × String × Option String :=
  (r.name, r.relpath, r.sha256)

theorem renumber_map_fields (k : Nat) (l : List FileRec) :
    (renumber k l).map fields = l.map fields := by
  induction l generalizing k with
  | nil => rfl
  | cons r rs ih => simp [renumber, fields, ih]

theorem renumber_map_index (k : Nat) (l : List FileRec) :
    (renumber k l).map (fun r => r.index) =
      (List.range' k l.length).map toString := by
  induction l generalizing k with
  | nil => rfl
  | cons r rs ih => simp [renumber, ih, List.range'_succ]

theorem renumber_length (k : Nat) (l : List FileRec) :
    (renumber k l).length = l.length := by
  have := congrArg List.length (renumber_map_fields k l)
  simpa using this

theorem contiguous_renumber (l : List FileRec) : Contiguous (renumber 0 l) := by
  unfold Contiguous
  rw [renumber_map_index, renumber_length, List.range_eq_range']

theorem contiguous_add (fs : FS) (db : List FileRec) (relpath name : String)
    (h : Contiguous db) : Contiguous (add_file fs db relpath name) := by
  unfold add_file
  split
  · exact h
  · split
    · exact h
    · unfold Contiguous at h ⊢
      simp only [List.map_append, List.length_append, List.map_cons, List.map_nil,
        List.length_cons, List.length_nil]
      rw [h, List.range_succ]
      simp

theorem contiguous_remove (db : List FileRec) (index : Int)
    (h : Contiguous db) : Contiguous (remove_file db index) := by
  unfold remove_file
  split
  · exact h
  · split
    · exact h
    · exact contiguous_renumber _

theorem contiguous_applyOps (ops : List Op) :
    ∀ db : List FileRec, Contiguous db → Contiguous (applyOps ops db) := by
  induction ops with
  | nil => intro db h; exact h
  | cons op rest ih =>
    intro db h
    simp only [applyOps, List.foldl_cons]
    apply ih
    cases op with
    | add fs relpath name => exact contiguous_add fs db relpath name h
    | remove index => exact contiguous_remove db index h

theorem contiguous_nil : Contiguous [] := rfl

/-- Generalisation of the remove_file filter over a shifted index base:
when the stored index attributes are the decimal strings of k..k+N-1 in
order, removing matches of toString (k + i) deletes exactly position i.
Decimal strings of distinct naturals are distinct (natToString_inj). -/
theorem filter_index_eq_eraseIdx (db : List FileRec) (k i : Nat)
    (h : db.map (fun r => r.index) = (List.range' k db.length).map toString)
    (hi : i < db.length) :
    db.filter (fun r => ¬ (r.index == toString (k + i))) = db.eraseIdx i := by
  induction db generalizing k i with
  | nil => simp at hi
  | cons r rs ih =>
    simp only [List.map_cons, List.length_cons, List.range'_succ, List.cons.injEq] at h
    obtain ⟨hr, hrs⟩ := h
    cases i with
    | zero =>
      have hhead : (r.index == toString (k + 0)) = true := by
        simp [hr]
      simp only [List.filter_cons, hhead, decide_not, Bool.not_true, Bool.false_eq_true,
        if_false, List.eraseIdx_cons_zero]
      apply List.filter_eq_self.mpr
      intro a ha
      have hmem : a.index ∈ rs.map (fun r => r.index) := List.mem_map_of_mem _ ha
      rw [hrs] at hmem
      simp only [List.mem_map, List.mem_range'_1] at hmem
      obtain ⟨j, hj, hja⟩ := hmem
      simp only [decide_not, Bool.not_eq_eq_eq_not, Bool.not_true, decide_eq_false_iff_not]
      intro hcontra
      have hax : a.index = toString (k + 0) := eq_of_beq hcontra
      have := natToString_inj (hja.trans hax)
      omega
    | succ i =>
      have hne : (r.index == toString (k + (i + 1))) = false := by
        rw [beq_eq_false_iff_ne, hr]
        intro hcontra
        have := natToString_inj hcontra
        omega
      have hlt : i < rs.length := by simpa using (Nat.lt_of_succ_lt_succ hi)
      have hrs' : rs.map (fun r => r.index) =
          (List.range' (k + 1) rs.length).map toString := hrs
      have hrec := ih (k + 1) i hrs' hlt
      have hstep : (r :: rs).filter (fun r => ¬ (r.index == toString (k + (i + 1))))
          = r :: rs.filter (fun r => ¬ (r.index == toString (k + (i + 1)))) := by
        simp only [List.filter_cons]
        simp [beq_eq_false_iff_ne.mp hne]
      rw [hstep, List.eraseIdx_cons_succ, show k + (i + 1) = (k + 1) + i by omega, hrec]

/-- On a contiguous store, the filter of remove_file deletes exactly the
record in position i. -/
theorem contiguous_filter_eq_eraseIdx (db : List FileRec) (i : Nat)
    (h : Contiguous db) (hi : i < db.length) :
    db.filter (fun r => ¬ (r.index == toString i)) = db.eraseIdx i := by
  have h' : db.map (fun r => r.index) = (List.range' 0 db.length).map toString := by
    unfold Contiguous at h
    rw [h, List.range_eq_range']
  have := filter_index_eq_eraseIdx db 0 i h' hi
  rwa [Nat.zero_add] at this

/-! ### Snapshot engine (Database.take_snapshot / Database.restore_snapshot)

The buffer directory and the tar archive are directories of named
entries.  An entry is either raw file bytes (a staged blob, named by
its digest) or the serialized manifest copy (profile.xml).  Writing a
name that is already present overwrites it in place (shutil.copy), a
fresh name is appended (directory listing order is modelled as creation
order).
-/

/-- An entry of the buffer directory or of a tar archive. -/
inductive Content where
  | bytes (b : Bytes)
  | xml (recs : List FileRec)
deriving Repr, DecidableEq

/-- A directory (or tar archive): named entries in creation order. -/
abbrev Dir := List (String × Content)

/-- Write the entry named k in a directory of named entries: overwrite
in place when the name is taken, append otherwise. -/
def storeWrite {α : Type} : List (String × α) → String → α → List (String × α)
  | [], k, v => [(k, v)]
  | (q, w) :: rest, k, v =>
    if q == k then (k, v) :: rest else (q, w) :: storeWrite rest k v

/-- Read the entry named k, scanning in order. -/
def storeRead {α : Type} : List (String × α) → String → Option α
  | [], _ => none
  | (q, v) :: rest, k => if q == k then some v else storeRead rest k

/-- The one exception class the snapshot paths raise: FileNotFoundError,
from open / shutil.copy / tarfile.open on a missing path.  For a tracked
file that vanished before hashing this is the SourceFileMissing failure
of the specification. -/
inductive Err where
  | fileNotFound
deriving Repr, DecidableEq

instance : DecidableEq (Except Err Unit) := fun a b =>
  match a, b with
  | .ok (), .ok () => isTrue rfl
  | .error .fileNotFound, .error .fileNotFound => isTrue rfl
  | .ok _, .error _ => isFalse (fun h => Except.noConfusion h)
  | .error _, .ok _ => isFalse (fun h => Except.noConfusion h)

/-- Global state seen by the snapshot engine: the parsed record list of
the active profile file (DATABASE), its profile name
(path.basename(DATABASE).split(".")[0]), the tracked-file filesystem,
the buffer directory (none when absent), the listing of
snapshots/profile (none when that directory does not exist yet), and
the archive files written so far, keyed by path. -/
structure Sys where
  db : List FileRec
  profile : String
  fs : FS
  buffer : Option Dir
  snapdir : Option (List String)
  archives : List (String × Dir)
deriving Repr, DecidableEq

/-- The per-record loop of take_snapshot: open and hash the tracked
file (raising FileNotFoundError when its relative path is gone), set
the sha256 field on the copied element, append it to the new tree, and
stage the bytes in the buffer under the digest name.  Returns the
buffer as left by the loop and either the new record list or the first
failure. -/
def snapLoop (dg : Bytes → String) (fs : FS) :
    List FileRec → Dir → Dir × Except Err (List FileRec)
  | [], buf => (buf, .ok [])
  | r :: rs, buf =>
    match fsLookup fs r.relpath with
    | none => (buf, .error .fileNotFound)
    | some b =>
      let buf1 := storeWrite buf (dg b) (.bytes b)
      match snapLoop dg fs rs buf1 with
      | (bufF, .ok recs) => (bufF, .ok ({ r with sha256 := some (dg b) } :: recs))
      | (bufF, .error e) => (bufF, .error e)

/-- Archive file name for sequence number n:
f-string dirname[len(os.listdir(...))].tar. -/
def archiveName (profile : String) (n : Nat) : String :=
  profile ++ "[" ++ toString n ++ "].tar"

/-- Path of the archive under the snapshots directory. -/
def archivePath (profile : String) (n : Nat) : String :=
  "snapshots/" ++ profile ++ "/" ++ archiveName profile n

/-- Result of take_snapshot: the state after the call, the outcome
(ok, or the exception that propagated), and the archive file the call
wrote, when it wrote one. -/
structure SnapOut where
  sys : Sys
  outcome : Except Err Unit
  written : Option (String × Dir)
deriving Repr, DecidableEq

/-- Database.take_snapshot.  Steps, as in the source: reset the buffer
(rmtree if present, mkdir); loop over the file elements hashing and
staging (an exception there propagates, leaving the partially staged
buffer and writing nothing); write the manifest copy as profile.xml
into the buffer; create snapshots/profile when missing; number the new
archive with the count of entries of that directory; write the tar
whose entries are the buffer contents.  The buffer is not removed
afterwards, and the profile database file is never written. -/
def take_snapshot (dg : Bytes → String) (sys : Sys) : SnapOut :=
  match snapLoop dg sys.fs sys.db [] with
  | (buf, .error e) =>
    { sys := { sys with buffer := some buf }, outcome := .error e, written := none }
  | (buf, .ok recs) =>
    let buf1 := storeWrite buf "profile.xml" (.xml recs)
    let listing := sys.snapdir.getD []
    let n := listing.length
    let fname := archiveName sys.profile n
    let apath := archivePath sys.profile n
    let listing1 := if fname ∈ listing then listing else listing ++ [fname]
    let archives1 := storeWrite sys.archives apath buf1
    { sys := { sys with
                 buffer := some buf1
                 snapdir := some listing1
                 archives := archives1 },
      outcome := .ok (), written := some (apath, buf1) }

/-- Database.restore_snapshot.  When the given path does not exist the
function prints a message and returns normally.  Otherwise it resets
the buffer and calls tarfile.open(path.join(BUFFER, "snapshot.tar"),
mode="r") — a read of the file snapshot.tar inside the buffer directory
that was just recreated empty, which therefore raises
FileNotFoundError unconditionally; every later statement (extractall,
reading profile.xml, the copy loop) is unreachable. -/
def restore_snapshot (sys : Sys) (snapshot_filepath : String) :
    Sys × Except Err Unit :=
  if ¬ sys.archives.any (fun p => p.1 == snapshot_filepath) then
    (sys, .ok ())
  else
    ({ sys with buffer := some [] }, .error .fileNotFound)

/-! ### Store lemmas -/

/-- The entry names of a directory, in order. -/
def storeKeys {α : Type} (d : List (String × α)) : List String :=
  d.map Prod.fst

theorem storeRead_write_self {α : Type} (d : List (String × α)) (k : String) (v : α) :
    storeRead (storeWrite d k v) k = some v := by
  induction d with
  | nil => simp [storeWrite, storeRead]
  | cons p rest ih =>
    obtain ⟨q, w⟩ := p
    by_cases hq : (q == k) = true
    · simp [storeWrite, hq, storeRead]
    · simp only [storeWrite, hq, Bool.false_eq_true, if_false, reduceIte]
      simp only [storeRead, hq, Bool.false_eq_true, if_false, reduceIte]
      exact ih

theorem storeRead_write_ne {α : Type} (d : List (String × α)) {k k' : String} (v : α)
    (h : k' ≠ k) : storeRead (storeWrite d k v) k' = storeRead d k' := by
  have hkk : (k == k') = false := beq_eq_false_iff_ne.mpr (Ne.symm h)
  induction d with
  | nil => simp [storeWrite, storeRead, hkk]
  | cons p rest ih =>
    obtain ⟨q, w⟩ := p
    by_cases hq : (q == k) = true
    · have hq' : q = k := eq_of_beq hq
      subst hq'
      simp [storeWrite, storeRead, hkk]
    · simp only [storeWrite, hq, Bool.false_eq_true, if_false, reduceIte]
      by_cases hq2 : (q == k') = true
      · simp [storeRead, hq2]
      · simp only [storeRead, hq2, Bool.false_eq_true, if_false, reduceIte]
        exact ih

theorem storeKeys_write_of_mem {α : Type} (d : List (String × α)) (k : String) (v : α)
    (h : k ∈ storeKeys d) : storeKeys (storeWrite d k v) = storeKeys d := by
  induction d with
  | nil => simp [storeKeys] at h
  | cons p rest ih =>
    obtain ⟨q, w⟩ := p
    by_cases hq : (q == k) = true
    · have hq' : q = k := eq_of_beq hq
      subst hq'
      simp [storeWrite, hq, storeKeys]
    · have hqne : q ≠ k := fun he => hq (by simp [he])
      have hmem : k ∈ storeKeys rest := by
        simp only [storeKeys, List.map_cons, List.mem_cons] at h
        rcases h with h | h
        · exact absurd h.symm hqne
        · exact h
      simp only [storeWrite, hq, Bool.false_eq_true, if_false, reduceIte]
      simp only [storeKeys, List.map_cons, List.cons.injEq, true_and]
      exact ih hmem

theorem storeKeys_write_of_not_mem {α : Type} (d : List (String × α)) (k : String) (v : α)
    (h : k ∉ storeKeys d) : storeKeys (storeWrite d k v) = storeKeys d ++ [k] := by
  induction d with
  | nil => simp [storeWrite, storeKeys]
  | cons p rest ih =>
    obtain ⟨q, w⟩ := p
    have hne : q ≠ k := by
      intro he
      exact h (by simp [storeKeys, he])
    have hq : (q == k) = false := beq_eq_false_iff_ne.mpr hne
    have hrest : k ∉ storeKeys rest := by
      intro hm
      exact h (by simp [storeKeys] at hm ⊢; right; simpa [storeKeys] using hm)
    simp only [storeWrite, hq, Bool.false_eq_true, if_false, reduceIte]
    simp only [storeKeys, List.map_cons, List.cons_append, List.cons.injEq, true_and]
    exact ih hrest

theorem storeKeys_write_nodup {α : Type} (d : List (String × α)) (k : String) (v : α)
    (h : (storeKeys d).Nodup) : (storeKeys (storeWrite d k v)).Nodup := by
  by_cases hm : k ∈ storeKeys d
  · rw [storeKeys_write_of_mem d k v hm]; exact h
  · rw [storeKeys_write_of_not_mem d k v hm]
    rw [List.nodup_append]
    exact ⟨h, List.nodup_singleton k, by simpa using hm⟩

theorem self_mem_storeKeys_write {α : Type} (d : List (String × α)) (k : String) (v : α) :
    k ∈ storeKeys (storeWrite d k v) := by
  by_cases hm : k ∈ storeKeys d
  · rw [storeKeys_write_of_mem d k v hm]; exact hm
  · rw [storeKeys_write_of_not_mem d k v hm]; simp

theorem mem_storeKeys_write_mono {α : Type} (d : List (String × α)) (k k' : String) (v : α)
    (h : k' ∈ storeKeys d) : k' ∈ storeKeys (storeWrite d k v) := by
  by_cases hm : k ∈ storeKeys d
  · rw [storeKeys_write_of_mem d k v hm]; exact h
  · rw [storeKeys_write_of_not_mem d k v hm]; exact List.mem_append_left _ h

theorem storeRead_isSome_of_mem_keys {α : Type} (d : List (String × α)) (k : String)
    (h : k ∈ storeKeys d) : ∃ v, storeRead d k = some v := by
  induction d with
  | nil => simp [storeKeys] at h
  | cons p rest ih =>
    obtain ⟨q, w⟩ := p
    by_cases hq : (q == k) = true
    · exact ⟨w, by simp [storeRead, hq]⟩
    · have hqne : q ≠ k := fun he => hq (by simp [he])
      have hmem : k ∈ storeKeys rest := by
        simp only [storeKeys, List.map_cons, List.mem_cons] at h
        rcases h with h | h
        · exact absurd h.symm hqne
        · exact h
      obtain ⟨v, hv⟩ := ih hmem
      exact ⟨v, by simp only [storeRead, hq, Bool.false_eq_true, if_false, reduceIte]; exact hv⟩

theorem count_eq_one_of_nodup_of_mem {l : List String} {k : String}
    (hn : l.Nodup) (hm : k ∈ l) : l.count k = 1 := by
  have h1 : l.count k ≤ 1 := List.nodup_iff_count_le_one.mp hn k
  have h2 : 0 < l.count k := List.count_pos_iff.mpr hm
  omega

theorem countP_key_eq_count_keys {α : Type} (d : List (String × α)) (k : String) :
    d.countP (fun e => e.1 == k) = (storeKeys d).count k := by
  induction d with
  | nil => simp [storeKeys]
  | cons p rest ih =>
    obtain ⟨q, w⟩ := p
    simp only [List.countP_cons, storeKeys, List.map_cons, List.count_cons]
    simp only [storeKeys] at ih
    rw [ih]

/-! ### snapLoop lemmas -/

/-- The record as it appears in the snapshot manifest copy: the copied
element with the sha256 field set to the digest of its file bytes. -/
def hashedRec (dg : Bytes → String) (fs : FS) (r : FileRec) : FileRec :=
  { r with sha256 := (fsLookup fs r.relpath).map dg }

theorem snapLoop_error_of_missing (dg : Bytes → String) (fs : FS) :
    ∀ (rs : List FileRec) (buf : Dir) (r : FileRec), r ∈ rs →
      fsLookup fs r.relpath = none →
      (snapLoop dg fs rs buf).2 = .error .fileNotFound := by
  intro rs
  induction rs with
  | nil => intro buf r hr _; simp at hr
  | cons s rest ih =>
    intro buf r hr hmiss
    rcases List.mem_cons.mp hr with heq | hmem
    · subst heq
      simp [snapLoop, hmiss]
    · cases hl : fsLookup fs s.relpath with
      | none => simp [snapLoop, hl]
      | some b =>
        have hrest := ih (storeWrite buf (dg b) (.bytes b)) r hmem hmiss
        cases hrec : snapLoop dg fs rest (storeWrite buf (dg b) (.bytes b)) with
        | mk bufF res =>
          rw [hrec] at hrest
          simp only at hrest
          subst hrest
          simp [snapLoop, hl, hrec]

theorem snapLoop_ok_shape (dg : Bytes → String) (fs : FS) :
    ∀ (rs : List FileRec) (buf bufF : Dir) (recs : List FileRec),
      snapLoop dg fs rs buf = (bufF, .ok recs) →
      recs = rs.map (hashedRec dg fs) := by
  intro rs
  induction rs with
  | nil =>
    intro buf bufF recs h
    simp only [snapLoop, Prod.mk.injEq] at h
    have h2 := h.2
    injection h2 with h3
    exact h3.symm
  | cons s rest ih =>
    intro buf bufF recs h
    cases hl : fsLookup fs s.relpath with
    | none => simp [snapLoop, hl] at h
    | some b =>
      simp only [snapLoop, hl] at h
      cases hrec : snapLoop dg fs rest (storeWrite buf (dg b) (.bytes b)) with
      | mk bufR res =>
        rw [hrec] at h
        cases res with
        | error e => simp at h
        | ok recs0 =>
          simp only [Prod.mk.injEq, Except.ok.injEq] at h
          rw [← h.2, List.map_cons, ih _ _ _ hrec]
          simp [hashedRec, hl]

theorem snapLoop_keys_mono (dg : Bytes → String) (fs : FS) :
    ∀ (rs : List FileRec) (buf bufF : Dir) (res : Except Err (List FileRec)) (k : String),
      snapLoop dg fs rs buf = (bufF, res) → k ∈ storeKeys buf → k ∈ storeKeys bufF := by
  intro rs
  induction rs with
  | nil =>
    intro buf bufF res k h hk
    simp only [snapLoop, Prod.mk.injEq] at h
    rw [← h.1]; exact hk
  | cons s rest ih =>
    intro buf bufF res k h hk
    cases hl : fsLookup fs s.relpath with
    | none =>
      simp only [snapLoop, hl] at h
      simp only [Prod.mk.injEq] at h
      rw [← h.1]; exact hk
    | some b =>
      simp only [snapLoop, hl] at h
      cases hrec : snapLoop dg fs rest (storeWrite buf (dg b) (.bytes b)) with
      | mk bufR res0 =>
        rw [hrec] at h
        have hk1 : k ∈ storeKeys (storeWrite buf (dg b) (.bytes b)) :=
          mem_storeKeys_write_mono buf (dg b) k (.bytes b) hk
        have := ih _ _ _ k hrec hk1
        cases res0 with
        | ok recs0 =>
          simp only [Prod.mk.injEq] at h
          rw [← h.1]; exact this
        | error e =>
          simp only [Prod.mk.injEq] at h
          rw [← h.1]; exact this

theorem snapLoop_ok_key_mem (dg : Bytes → String) (fs : FS) :
    ∀ (rs : List FileRec) (buf bufF : Dir) (recs : List FileRec) (r : FileRec) (b : Bytes),
      snapLoop dg fs rs buf = (bufF, .ok recs) → r ∈ rs →
      fsLookup fs r.relpath = some b → dg b ∈ storeKeys bufF := by
  intro rs
  induction rs with
  | nil => intro buf bufF recs r b _ hr; simp at hr
  | cons s rest ih =>
    intro buf bufF recs r b h hr hlook
    cases hl : fsLookup fs s.relpath with
    | none => simp [snapLoop, hl] at h
    | some b0 =>
      simp only [snapLoop, hl] at h
      cases hrec : snapLoop dg fs rest (storeWrite buf (dg b0) (.bytes b0)) with
      | mk bufR res0 =>
        rw [hrec] at h
        cases res0 with
        | error e => simp at h
        | ok recs0 =>
          simp only [Prod.mk.injEq, Except.ok.injEq] at h
          rcases List.mem_cons.mp hr with heq | hmem
          · subst heq
            rw [hl] at hlook
            cases hlook
            have hself := self_mem_storeKeys_write buf (dg b) (.bytes b)
            have := snapLoop_keys_mono dg fs rest _ _ _ (dg b) hrec hself
            rw [← h.1]; exact this
          · have := ih _ _ _ r b hrec hmem hlook
            rw [← h.1]; exact this

theorem snapLoop_keys_nodup (dg : Bytes → String) (fs : FS) :
    ∀ (rs : List FileRec) (buf bufF : Dir) (res : Except Err (List FileRec)),
      snapLoop dg fs rs buf = (bufF, res) → (storeKeys buf).Nodup →
      (storeKeys bufF).Nodup := by
  intro rs
  induction rs with
  | nil =>
    intro buf bufF res h hk
    simp only [snapLoop, Prod.mk.injEq] at h
    rw [← h.1]; exact hk
  | cons s rest ih =>
    intro buf bufF res h hk
    cases hl : fsLookup fs s.relpath with
    | none =>
      simp only [snapLoop, hl] at h
      simp only [Prod.mk.injEq] at h
      rw [← h.1]; exact hk
    | some b =>
      simp only [snapLoop, hl] at h
      cases hrec : snapLoop dg fs rest (storeWrite buf (dg b) (.bytes b)) with
      | mk bufR res0 =>
        rw [hrec] at h
        have hk1 := storeKeys_write_nodup buf (dg b) (.bytes b) hk
        have := ih _ _ _ hrec hk1
        cases res0 with
        | ok recs0 => simp only [Prod.mk.injEq] at h; rw [← h.1]; exact this
        | error e => simp only [Prod.mk.injEq] at h; rw [← h.1]; exact this

/-- Every entry of a buffer populated only by the staging loop is a
blob stored under the digest of its own bytes. -/
def BlobDir (dg : Bytes → String) (d : Dir) : Prop :=
  ∀ k v, storeRead d k = some v → ∃ b, v = Content.bytes b ∧ dg b = k

theorem blobDir_nil (dg : Bytes → String) : BlobDir dg [] := by
  intro k v h
  simp [storeRead] at h

theorem blobDir_write (dg : Bytes → String) (d : Dir) (b : Bytes)
    (h : BlobDir dg d) : BlobDir dg (storeWrite d (dg b) (.bytes b)) := by
  intro k v hv
  by_cases hk : k = dg b
  · subst hk
    rw [storeRead_write_self] at hv
    exact ⟨b, by injection hv with hv2; exact hv2.symm ▸ ⟨rfl, rfl⟩⟩
  · rw [storeRead_write_ne d _ hk] at hv
    exact h k v hv

theorem snapLoop_blobDir (dg : Bytes → String) (fs : FS) :
    ∀ (rs : List FileRec) (buf bufF : Dir) (res : Except Err (List FileRec)),
      snapLoop dg fs rs buf = (bufF, res) → BlobDir dg buf → BlobDir dg bufF := by
  intro rs
  induction rs with
  | nil =>
    intro buf bufF res h hb
    simp only [snapLoop, Prod.mk.injEq] at h
    rw [← h.1]; exact hb
  | cons s rest ih =>
    intro buf bufF res h hb
    cases hl : fsLookup fs s.relpath with
    | none =>
      simp only [snapLoop, hl] at h
      simp only [Prod.mk.injEq] at h
      rw [← h.1]; exact hb
    | some b =>
      simp only [snapLoop, hl] at h
      cases hrec : snapLoop dg fs rest (storeWrite buf (dg b) (.bytes b)) with
      | mk bufR res0 =>
        rw [hrec] at h
        have hb1 := blobDir_write dg buf b hb
        have := ih _ _ _ hrec hb1
        cases res0 with
        | ok recs0 => simp only [Prod.mk.injEq] at h; rw [← h.1]; exact this
        | error e => simp only [Prod.mk.injEq] at h; rw [← h.1]; exact this

/-! ### Concrete fixtures used by witnesses and failing-input theorems -/

/-- A concrete digest function standing in for the MD5 hex digest. -/
def dgW : Bytes → String := fun b => "h" ++ toString b

/-- A tracked-file record as Database.add_file creates it. -/
def recW : FileRec :=
  { index := "0", name := "a.txt", relpath := "a.txt", sha256 := none }

def recB : FileRec :=
  { index := "1", name := "b.txt", relpath := "b.txt", sha256 := none }

/-- One tracked file a.txt with one byte of content, fresh profile. -/
def sysW : Sys :=
  { db := [recW], profile := "current_profile", fs := [("a.txt", [104])]
    buffer := none, snapdir := none, archives := [] }

/-- Same profile but the tracked file has been deleted from disk. -/
def sysM : Sys := { sysW with fs := [] }

/-- A profile tracking no files. -/
def sysE : Sys := { sysW with db := [] }

/-- Two tracked files with identical byte content. -/
def sysD : Sys :=
  { db := [recW, recB], profile := "current_profile"
    fs := [("a.txt", [104]), ("b.txt", [104])]
    buffer := none, snapdir := none, archives := [] }

def fsX : FS := [("a.txt", [104])]

def dbW : List FileRec := [recW]

/-! ### Claim theorems -/

/-- Claim C2: if any tracked file recorded in the active manifest is
missing from disk when Database.take_snapshot runs, the operation fails
with the missing-source error (FileNotFoundError, the SourceFileMissing
failure of the specification), the failure aborts the whole snapshot,
and no archive file is written: the archive store, the snapshot
directory listing and the profile database are exactly as before. -/
theorem take_snapshot_missing_source_aborts (dg : Bytes → String) (sys : Sys)
    (r : FileRec) (hr : r ∈ sys.db) (hmiss : fsLookup sys.fs r.relpath = none) :
    (take_snapshot dg sys).outcome = .error .fileNotFound ∧
    (take_snapshot dg sys).written = none ∧
    (take_snapshot dg sys).sys.archives = sys.archives ∧
    (take_snapshot dg sys).sys.snapdir = sys.snapdir ∧
    (take_snapshot dg sys).sys.db = sys.db := by
  have herr := snapLoop_error_of_missing dg sys.fs sys.db [] r hr hmiss
  cases h : snapLoop dg sys.fs sys.db [] with
  | mk buf res =>
    rw [h] at herr
    simp only at herr
    subst herr
    simp [take_snapshot, h]

theorem take_snapshot_missing_source_aborts_witness :
    (take_snapshot dgW sysM).outcome = .error .fileNotFound ∧
    (take_snapshot dgW sysM).written = none ∧
    (take_snapshot dgW sysM).sys.archives = sysM.archives ∧
    (take_snapshot dgW sysM).sys.snapdir = sysM.snapdir ∧
    (take_snapshot dgW sysM).sys.db = sysM.db :=
  take_snapshot_missing_source_aborts dgW sysM recW (by decide) (by decide)

/-- Claim C5: Database.remove_file with a negative index, an index at or
beyond the store size, or on an empty store returns the store unchanged
and signals no error. -/
theorem remove_file_out_of_bounds_noop (db : List FileRec) (i : Int)
    (h : i < 0 ∨ (db.length : Int) ≤ i ∨ db = []) :
    remove_file db i = db := by
  unfold remove_file
  by_cases he : db.isEmpty = true
  · rw [if_pos he]
  · have hlen : db ≠ [] := by
      intro h0
      exact he (by simp [h0])
    have hcond : i > (db.length : Int) - 1 ∨ i < 0 := by
      rcases h with h | h | h
      · exact Or.inr h
      · exact Or.inl (by omega)
      · exact absurd h hlen
    rw [if_neg he, if_pos hcond]

theorem remove_file_out_of_bounds_noop_witness :
    remove_file dbW 5 = dbW :=
  remove_file_out_of_bounds_noop dbW 5 (Or.inr (Or.inl (by decide)))

/-- Claim C6: Database.take_snapshot never modifies the live persisted
manifest of the active profile: the profile database is identical
before and after the call (the digests are set only on the copied
elements appended to the snapshot manifest tree). -/
theorem take_snapshot_preserves_profile_db (dg : Bytes → String) (sys : Sys) :
    (take_snapshot dg sys).sys.db = sys.db := by
  cases h : snapLoop dg sys.fs sys.db [] with
  | mk buf res =>
    cases res with
    | ok recs => simp [take_snapshot, h]
    | error e => simp [take_snapshot, h]

/-- Claim C9: the sequence number assigned to a new snapshot equals the
count of entries already present in the profile snapshot directory at
capture time (zero when the directory is created by this call), and
when the resulting archive name is new the listing grows by exactly
that entry, so numbering is monotonically increasing as long as no
prior archive has been deleted. -/
theorem take_snapshot_sequence_number (dg : Bytes → String) (sys : Sys)
    (hok : (take_snapshot dg sys).outcome = .ok ()) :
    (∃ arch, (take_snapshot dg sys).written =
      some (archivePath sys.profile ((sys.snapdir.getD []).length), arch)) ∧
    (archiveName sys.profile ((sys.snapdir.getD []).length) ∉ sys.snapdir.getD [] →
      (take_snapshot dg sys).sys.snapdir =
        some (sys.snapdir.getD [] ++
          [archiveName sys.profile ((sys.snapdir.getD []).length)])) := by
  cases h : snapLoop dg sys.fs sys.db [] with
  | mk buf res =>
    cases res with
    | error e => simp [take_snapshot, h] at hok
    | ok recs =>
      constructor
      · exact ⟨storeWrite buf "profile.xml" (.xml recs), by simp [take_snapshot, h]⟩
      · intro hnm
        simp [take_snapshot, h, hnm]

theorem take_snapshot_sequence_number_witness :
    (take_snapshot dgW sysW).written =
      some (archivePath sysW.profile ((sysW.snapdir.getD []).length),
        storeWrite [(dgW [104], Content.bytes [104])] "profile.xml"
          (.xml [{ recW with sha256 := some (dgW [104]) }])) ∧
    (take_snapshot dgW sysW).sys.snapdir =
      some (sysW.snapdir.getD [] ++
        [archiveName sysW.profile ((sysW.snapdir.getD []).length)]) := by
  have h := take_snapshot_sequence_number dgW sysW (by decide)
  refine ⟨?_, h.2 (by decide)⟩
  obtain ⟨arch, ha⟩ := h.1
  rw [ha]
  have : arch = storeWrite [(dgW [104], Content.bytes [104])] "profile.xml"
      (.xml [{ recW with sha256 := some (dgW [104]) }]) := by
    have hw : (take_snapshot dgW sysW).written =
        some (archivePath sysW.profile ((sysW.snapdir.getD []).length),
          storeWrite [(dgW [104], Content.bytes [104])] "profile.xml"
            (.xml [{ recW with sha256 := some (dgW [104]) }])) := by decide
    rw [ha] at hw
    injection hw with hw2
    exact congrArg Prod.snd hw2
  rw [this]

/-- Claim C10: when the active profile tracks zero files,
Database.take_snapshot succeeds and the archive it writes contains only
the manifest copy profile.xml with an empty record list, and no blobs. -/
theorem take_snapshot_empty_manifest (dg : Bytes → String) (sys : Sys)
    (hdb : sys.db = []) :
    (take_snapshot dg sys).outcome = .ok () ∧
    (take_snapshot dg sys).written =
      some (archivePath sys.profile ((sys.snapdir.getD []).length),
        [("profile.xml", Content.xml [])]) := by
  constructor <;> simp [take_snapshot, hdb, snapLoop, storeWrite]

theorem take_snapshot_empty_manifest_witness :
    (take_snapshot dgW sysE).outcome = .ok () ∧
    (take_snapshot dgW sysE).written =
      some (archivePath sysE.profile ((sysE.snapdir.getD []).length),
        [("profile.xml", Content.xml [])]) :=
  take_snapshot_empty_manifest dgW sysE rfl

/-- Claim C3: after every sequence of Database.add_file and
Database.remove_file calls starting from an empty store, the index
attributes of the stored records are exactly the decimal strings of
0..N-1 in stored order (no gaps, no duplicates), and a remove on such a
store deletes exactly the record in the removed position, so the
surviving records keep their original relative order with all fields
other than the reassigned index unchanged. -/
theorem manifest_index_contiguity :
    (∀ ops : List Op, Contiguous (applyOps ops [])) ∧
    (∀ (db : List FileRec) (i : Int), Contiguous db → 0 ≤ i →
      i.toNat < db.length →
      (remove_file db i).map fields = (db.eraseIdx i.toNat).map fields) := by
  constructor
  · intro ops
    exact contiguous_applyOps ops [] contiguous_nil
  · intro db i hc h0 hlt
    have hne : ¬ db.isEmpty = true := by
      intro h0
      rw [List.isEmpty_iff] at h0
      rw [h0] at hlt
      simp at hlt
    have hbound : ¬ (i > (db.length : Int) - 1 ∨ i < 0) := by
      push_neg
      omega
    unfold remove_file
    rw [if_neg hne, if_neg hbound]
    have hts : toString i = toString i.toNat := by
      cases i with
      | ofNat n => rfl
      | negSucc n => simp at h0
    rw [hts, contiguous_filter_eq_eraseIdx db i.toNat hc hlt]
    exact renumber_map_fields 0 _

theorem manifest_index_contiguity_witness :
    Contiguous (applyOps [Op.add fsX "a.txt" "a.txt", Op.remove 0] []) ∧
    (remove_file dbW 0).map fields = (dbW.eraseIdx 0).map fields :=
  ⟨manifest_index_contiguity.1 [Op.add fsX "a.txt" "a.txt", Op.remove 0],
   manifest_index_contiguity.2 dbW 0 (by rfl) (by decide) (by decide)⟩

/-- Claim C4: calling Database.add_file twice with paths resolving to
the same relative path leaves exactly one record for that relative path
(when none was present before), and the second call is a no-op on the
persisted manifest whatever filesystem it observes. -/
theorem add_file_idempotent (fs fs2 : FS) (db : List FileRec)
    (relpath name name2 : String) (b : Bytes)
    (hpres : fsLookup fs relpath = some b) :
    add_file fs2 (add_file fs db relpath name) relpath name2 =
      add_file fs db relpath name ∧
    ((∀ r ∈ db, r.relpath ≠ relpath) →
      (add_file fs db relpath name).countP (fun r => r.relpath == relpath) = 1) := by
  have hfs : ¬ fsLookup fs relpath = none := by rw [hpres]; simp
  constructor
  · by_cases hdup : db.any (fun r => r.relpath == relpath) = true
    · have hdb1 : add_file fs db relpath name = db := by
        unfold add_file
        rw [if_neg hfs, if_pos hdup]
      rw [hdb1]
      unfold add_file
      by_cases hfs2 : fsLookup fs2 relpath = none
      · rw [if_pos hfs2]
      · rw [if_neg hfs2, if_pos hdup]
    · have hdb1 : add_file fs db relpath name =
          db ++ [{ index := toString db.length, name := name, relpath := relpath, sha256 := none }] := by
        unfold add_file
        rw [if_neg hfs, if_neg hdup]
      rw [hdb1]
      have hany : (db ++ [({ index := toString db.length, name := name, relpath := relpath, sha256 := none } : FileRec)]).any
          (fun r => r.relpath == relpath) = true := by
        simp [List.any_append]
      unfold add_file
      by_cases hfs2 : fsLookup fs2 relpath = none
      · rw [if_pos hfs2]
      · rw [if_neg hfs2, if_pos hany]
  · intro hfresh
    have hdup : ¬ db.any (fun r => r.relpath == relpath) = true := by
      rw [List.any_eq_true]
      rintro ⟨r, hr, hbeq⟩
      exact hfresh r hr (eq_of_beq hbeq)
    unfold add_file
    rw [if_neg hfs, if_neg hdup, List.countP_append]
    have h0 : db.countP (fun r => r.relpath == relpath) = 0 :=
      List.countP_eq_zero.mpr
        (fun r hr => by simpa using hfresh r hr)
    simp [h0]

theorem add_file_idempotent_witness :
    add_file fsX (add_file fsX [] "a.txt" "a.txt") "a.txt" "a.txt" =
      add_file fsX [] "a.txt" "a.txt" ∧
    (add_file fsX [] "a.txt" "a.txt").countP
      (fun r => r.relpath == "a.txt") = 1 :=
  ⟨(add_file_idempotent fsX fsX [] "a.txt" "a.txt" "a.txt" [104] (by decide)).1,
   (add_file_idempotent fsX fsX [] "a.txt" "a.txt" "a.txt" [104] (by decide)).2
     (by simp)⟩

/-- Claim C7: when two tracked files have identical byte content, the
archive written by Database.take_snapshot holds exactly one entry named
by that content digest, and that entry is a staged blob; the embedded
manifest copy has one record per tracked file, and the records of the
two files both carry that shared digest. -/
theorem take_snapshot_dedup (dg : Bytes → String) (sys : Sys) (i j : Nat) (c : Bytes)
    (hij : i ≠ j) (hi : i < sys.db.length) (hj : j < sys.db.length)
    (hci : fsLookup sys.fs (sys.db.get ⟨i, hi⟩).relpath = some c)
    (hcj : fsLookup sys.fs (sys.db.get ⟨j, hj⟩).relpath = some c)
    (hpx : dg c ≠ "profile.xml")
    (hok : (take_snapshot dg sys).outcome = .ok ()) :
    ∃ p arch, (take_snapshot dg sys).written = some (p, arch) ∧
      arch.countP (fun e => e.1 == dg c) = 1 ∧
      (∃ b, storeRead arch (dg c) = some (Content.bytes b) ∧ dg b = dg c) ∧
      storeRead arch "profile.xml" =
        some (Content.xml (sys.db.map (hashedRec dg sys.fs))) ∧
      (sys.db.map (hashedRec dg sys.fs)).length = sys.db.length ∧
      (sys.db.map (hashedRec dg sys.fs))[i]? =
        some (hashedRec dg sys.fs (sys.db.get ⟨i, hi⟩)) ∧
      (hashedRec dg sys.fs (sys.db.get ⟨i, hi⟩)).sha256 = some (dg c) ∧
      (sys.db.map (hashedRec dg sys.fs))[j]? =
        some (hashedRec dg sys.fs (sys.db.get ⟨j, hj⟩)) ∧
      (hashedRec dg sys.fs (sys.db.get ⟨j, hj⟩)).sha256 = some (dg c) := by
  cases h : snapLoop dg sys.fs sys.db [] with
  | mk buf res =>
    cases res with
    | error e => simp [take_snapshot, h] at hok
    | ok recs =>
      have hshape := snapLoop_ok_shape dg sys.fs sys.db [] buf recs h
      have hnodup : (storeKeys buf).Nodup :=
        snapLoop_keys_nodup dg sys.fs sys.db [] buf (.ok recs) h (by simp [storeKeys])
      have hmem : dg c ∈ storeKeys buf :=
        snapLoop_ok_key_mem dg sys.fs sys.db [] buf recs (sys.db.get ⟨i, hi⟩) c h
          (List.get_mem sys.db i hi) hci
      have hblob : BlobDir dg buf :=
        snapLoop_blobDir dg sys.fs sys.db [] buf (.ok recs) h (blobDir_nil dg)
      refine ⟨archivePath sys.profile ((sys.snapdir.getD []).length),
        storeWrite buf "profile.xml" (.xml recs), ?_, ?_, ?_, ?_, ?_, ?_, ?_, ?_, ?_⟩
      · simp [take_snapshot, h]
      · rw [countP_key_eq_count_keys]
        exact count_eq_one_of_nodup_of_mem
          (storeKeys_write_nodup buf "profile.xml" (.xml recs) hnodup)
          (mem_storeKeys_write_mono buf "profile.xml" (dg c) (.xml recs) hmem)
      · obtain ⟨v, hv⟩ := storeRead_isSome_of_mem_keys buf (dg c) hmem
        obtain ⟨b, hb, hbd⟩ := hblob (dg c) v hv
        refine ⟨b, ?_, hbd⟩
        rw [storeRead_write_ne buf (.xml recs) hpx, hv, hb]
      · rw [← hshape]
        exact storeRead_write_self buf "profile.xml" (.xml recs)
      · simp
      · rw [List.getElem?_map, List.getElem?_eq_getElem hi]
        simp [List.get_eq_getElem]
      · have hci2 : fsLookup sys.fs sys.db[i].relpath = some c := hci
        simp [hashedRec, hci2]
      · rw [List.getElem?_map, List.getElem?_eq_getElem hj]
        simp [List.get_eq_getElem]
      · have hcj2 : fsLookup sys.fs sys.db[j].relpath = some c := hcj
        simp [hashedRec, hcj2]

theorem take_snapshot_dedup_witness :
    ∃ p arch, (take_snapshot dgW sysD).written = some (p, arch) ∧
      arch.countP (fun e => e.1 == dgW [104]) = 1 ∧
      (∃ b, storeRead arch (dgW [104]) = some (Content.bytes b) ∧ dgW b = dgW [104]) ∧
      storeRead arch "profile.xml" =
        some (Content.xml (sysD.db.map (hashedRec dgW sysD.fs))) ∧
      (sysD.db.map (hashedRec dgW sysD.fs)).length = sysD.db.length ∧
      (sysD.db.map (hashedRec dgW sysD.fs))[0]? =
        some (hashedRec dgW sysD.fs (sysD.db.get ⟨0, by decide⟩)) ∧
      (hashedRec dgW sysD.fs (sysD.db.get ⟨0, by decide⟩)).sha256 = some (dgW [104]) ∧
      (sysD.db.map (hashedRec dgW sysD.fs))[1]? =
        some (hashedRec dgW sysD.fs (sysD.db.get ⟨1, by decide⟩)) ∧
      (hashedRec dgW sysD.fs (sysD.db.get ⟨1, by decide⟩)).sha256 = some (dgW [104]) :=
  take_snapshot_dedup dgW sysD 0 1 [104] (by decide) (by decide) (by decide)
    (by decide) (by decide) (by decide) (by decide)

/-- Claim C1 (code bug): the round trip fails on every input.  On the
concrete profile sysW, take_snapshot succeeds and writes the archive at
snapshots/current_profile/current_profile[0].tar; after the tracked
file is deleted from disk, restore_snapshot called on exactly that
existing archive path raises FileNotFoundError — the source opens
path.join(BUFFER, "snapshot.tar") inside the freshly emptied buffer
instead of the archive it was given — and leaves the filesystem without
the file, so the snapshot content is never reproduced at a.txt. -/
theorem restore_of_take_snapshot_fails :
    (take_snapshot dgW sysW).outcome = .ok () ∧
    (take_snapshot dgW sysW).sys.archives =
      [(archivePath "current_profile" 0,
        [(dgW [104], Content.bytes [104]),
         ("profile.xml", Content.xml [{ recW with sha256 := some (dgW [104]) }])])] ∧
    restore_snapshot { (take_snapshot dgW sysW).sys with fs := [] }
        (archivePath "current_profile" 0) =
      ({ (take_snapshot dgW sysW).sys with fs := [], buffer := some [] },
        .error .fileNotFound) ∧
    fsLookup (restore_snapshot { (take_snapshot dgW sysW).sys with fs := [] }
        (archivePath "current_profile" 0)).1.fs "a.txt" = none := by
  refine ⟨by decide, by decide, by decide, by decide⟩

/-- Claim C8 (code bug): a successful Database.take_snapshot does not
delete the buffer directory — the source has no cleanup after writing
the tar, despite its own docstring — so the staged blob and the
manifest copy are still present in the buffer afterwards. -/
theorem take_snapshot_leaves_buffer :
    (take_snapshot dgW sysW).outcome = .ok () ∧
    (take_snapshot dgW sysW).sys.buffer =
      some [(dgW [104], Content.bytes [104]),
            ("profile.xml", Content.xml [{ recW with sha256 := some (dgW [104]) }])] := by
  refine ⟨by decide, by decide⟩

end Fossil
